import Mathlib

/-!
Verification of the connection/session layer of the hello_rust message relay.

The development shallowly embeds the Rust sources:

* shared/src/lib.rs — the length-prefixed framing (receive_bytes and
  send_bytes) and the CBOR message codec for MessageType (send_message uses
  serde_cbor to_vec, receive_message uses serde_cbor from_slice);
* server/src/main.rs — the accept loop (run_server), the broadcast fan-out in
  handle_client, the registry removal (remove_client_writer), the
  per-connection lifecycle driven by authenticate_user, and the CLI defaults;
* client/src/main.rs and src/main.rs — the client-side CLI defaults.

Byte streams are modelled as lists of naturals (each byte below 256), machine
integer casts as explicit remainders (the Rust cast bytes.len() as u32 becomes
length mod 2 to the 32), and fallible reads as Option results.
-/

namespace HelloRust

/-! ## Framing layer, from shared/src/lib.rs -/

/-- Big-endian bytes of a 32-bit value, as produced by u32 to_be_bytes applied
to the truncated length. -/
def u32_be (n : Nat) : List Nat :=
  [n / 2 ^ 24 % 256, n / 2 ^ 16 % 256, n / 2 ^ 8 % 256, n % 256]

/-- Value of a big-endian byte string, as computed by u32 from_be_bytes. -/
def be_to_nat (bs : List Nat) : Nat :=
  bs.foldl (fun a b => a * 256 + b) 0

/-- Model of read_exact on a stream that holds exactly the listed bytes before
end of stream: returns the first n bytes and the remaining stream, or fails
(ReceiveFailed, for instance an unexpected end of file) when fewer than n bytes
remain. -/
def read_exact (n : Nat) (s : List Nat) : Option (List Nat × List Nat) :=
  if n ≤ s.length then some (s.take n, s.drop n) else none

/-- Model of receive_bytes from shared/src/lib.rs: read_exact a 4-byte length
buffer, interpret it as a big-endian u32, then read_exact that many payload
bytes. Returns the payload together with the unconsumed rest of the stream. -/
def receive_bytes (s : List Nat) : Option (List Nat × List Nat) :=
  match read_exact 4 s with
  | none => none
  | some (bytes_len_buf, rest) =>
    match read_exact (be_to_nat bytes_len_buf) rest with
    | none => none
    | some (buffer, rest2) => some (buffer, rest2)

/-- Model of send_bytes from shared/src/lib.rs, exposing its transmission
behaviour on the wire. The length prefix is produced by the cast
bytes.len() as u32, hence the remainder by 2 to the 32. The source issues a
single write call for the 4-byte prefix and discards the returned count, so
when the transport accepts only prefixAccepted of the 4 bytes the missing
prefix bytes are never retried; the payload itself goes through write_all and
is always transmitted completely. -/
def send_bytes (bytes : List Nat) (prefixAccepted : Nat) : List Nat :=
  (u32_be (bytes.length % 2 ^ 32)).take (min prefixAccepted 4) ++ bytes

theorem send_bytes_full (p : List Nat) :
    send_bytes p 4 = u32_be (p.length % 2 ^ 32) ++ p := by
  simp [send_bytes, u32_be]

theorem be_to_nat_u32_be (n : Nat) : be_to_nat (u32_be n) = n % 2 ^ 32 := by
  simp only [u32_be, be_to_nat, List.foldl]
  omega

theorem length_u32_be (n : Nat) : (u32_be n).length = 4 := by
  simp [u32_be]

theorem read_exact_append (xs ys : List Nat) :
    read_exact xs.length (xs ++ ys) = some (xs, ys) := by
  simp [read_exact]

theorem read_exact_short {n : Nat} {s : List Nat} (h : s.length < n) :
    read_exact n s = none := by
  simp [read_exact]
  omega

/-- C3: the length prefix is sent with a single write call whose result is
discarded. Evaluated at the payload consisting of the single byte 7: when the
transport accepts all 4 prefix bytes the full frame appears on the wire, but
when it accepts only 2 of them the frame is missing two prefix bytes, which
the code never retries, and the receiver fails on the corrupt stream. -/
theorem send_bytes_prefix_single_write :
    send_bytes [7] 4 = [0, 0, 0, 1, 7] ∧ send_bytes [7] 2 = [0, 0, 7] ∧
      receive_bytes (send_bytes [7] 2) = none := by decide

theorem receive_bytes_some (s lenBuf rest buffer rest2 : List Nat)
    (h1 : read_exact 4 s = some (lenBuf, rest))
    (h2 : read_exact (be_to_nat lenBuf) rest = some (buffer, rest2)) :
    receive_bytes s = some (buffer, rest2) := by
  unfold receive_bytes
  rw [h1]
  show (match read_exact (be_to_nat lenBuf) rest with
    | none => none
    | some (buffer, rest2) => some (buffer, rest2)) = some (buffer, rest2)
  rw [h2]

theorem receive_bytes_none_of_short_head (s : List Nat)
    (h : read_exact 4 s = none) : receive_bytes s = none := by
  unfold receive_bytes
  rw [h]

theorem receive_bytes_none_of_short_body (s lenBuf rest : List Nat)
    (h1 : read_exact 4 s = some (lenBuf, rest))
    (h2 : read_exact (be_to_nat lenBuf) rest = none) :
    receive_bytes s = none := by
  unfold receive_bytes
  rw [h1]
  show (match read_exact (be_to_nat lenBuf) rest with
    | none => none
    | some (buffer, rest2) => some (buffer, rest2)) = none
  rw [h2]

theorem receive_bytes_of_length_two_pow_32 (p : List Nat) (hp : p.length = 2 ^ 32) :
    receive_bytes (send_bytes p 4) = some ([], p) := by
  rw [send_bytes_full, hp, Nat.mod_self]
  have h4 : u32_be 0 = [0, 0, 0, 0] := by decide
  rw [h4]
  apply receive_bytes_some _ [0, 0, 0, 0] p [] p
  · exact read_exact_append [0, 0, 0, 0] p
  · have hbe : be_to_nat [0, 0, 0, 0] = 0 := by decide
    rw [hbe]
    unfold read_exact
    rw [if_pos (Nat.zero_le _), List.take_zero, List.drop_zero]

/-- C5 counterexample: the claim quantifies over every payload, but for the
payload of 2 to the 32 zero bytes the length prefix wraps to 0, and decoding
the encoded frame returns the empty payload instead of the original one. -/
theorem frame_roundtrip_fails_at_two_pow_32 :
    receive_bytes (send_bytes (List.replicate (2 ^ 32) 0) 4) ≠
      some (List.replicate (2 ^ 32) 0, []) := by
  intro hcontra
  rw [receive_bytes_of_length_two_pow_32 (List.replicate (2 ^ 32) 0)
    (List.length_replicate (2 ^ 32) 0)] at hcontra
  have hpair := Option.some_inj.mp hcontra
  have hfst : ([] : List Nat) = List.replicate (2 ^ 32) 0 := congrArg Prod.fst hpair
  have hlen : (0 : Nat) = (List.replicate (2 ^ 32) (0 : Nat)).length :=
    congrArg List.length hfst
  rw [List.length_replicate] at hlen
  exact absurd hlen (by norm_num)

/-- C5 amended: for every payload of fewer than 2 to the 32 bytes, reading the
frame written by send_bytes on a fully accepting transport returns exactly the
payload with nothing left over, and reading any strict prefix of the frame (a
stream closed mid-frame) fails with an error, never a short decode. -/
theorem receive_bytes_send_bytes (p : List Nat) (h : p.length < 2 ^ 32) :
    receive_bytes (send_bytes p 4) = some (p, []) ∧
      ∀ k, k < (send_bytes p 4).length →
        receive_bytes ((send_bytes p 4).take k) = none := by
  rw [send_bytes_full]
  have hmod : p.length % 2 ^ 32 = p.length := Nat.mod_eq_of_lt h
  have hbe : be_to_nat (u32_be (p.length % 2 ^ 32)) = p.length := by
    rw [be_to_nat_u32_be, Nat.mod_mod_of_dvd _ (dvd_refl _), hmod]
  have hre : read_exact 4 (u32_be (p.length % 2 ^ 32) ++ p) =
      some (u32_be (p.length % 2 ^ 32), p) := by
    rw [← length_u32_be (p.length % 2 ^ 32)]
    exact read_exact_append _ _
  constructor
  · apply receive_bytes_some _ _ p p []
    · exact hre
    · rw [hbe]
      unfold read_exact
      rw [if_pos (Nat.le_refl _), List.take_length, List.drop_length]
  · intro k hk
    rw [List.length_append, length_u32_be] at hk
    rcases Nat.lt_or_ge k 4 with hk4 | hk4
    · apply receive_bytes_none_of_short_head
      apply read_exact_short
      rw [List.length_take, List.length_append, length_u32_be]
      omega
    · have htake : (u32_be (p.length % 2 ^ 32) ++ p).take k =
          u32_be (p.length % 2 ^ 32) ++ p.take (k - 4) := by
        rw [List.take_append_eq_append_take,
          List.take_of_length_le (by rw [length_u32_be]; omega), length_u32_be]
      rw [htake]
      apply receive_bytes_none_of_short_body _ _ (p.take (k - 4))
      · rw [← length_u32_be (p.length % 2 ^ 32)]
        exact read_exact_append _ _
      · rw [hbe]
        apply read_exact_short
        rw [List.length_take]
        omega

/-- Witness for C5 amended, at the one-byte payload 42. -/
theorem receive_bytes_send_bytes_witness :
    [42].length < 2 ^ 32 ∧
      (receive_bytes (send_bytes [42] 4) = some ([42], []) ∧
        ∀ k, k < (send_bytes [42] 4).length →
          receive_bytes ((send_bytes [42] 4).take k) = none) :=
  ⟨by norm_num, receive_bytes_send_bytes [42] (by norm_num)⟩

/-- C10: the length prefix written by send_bytes is the payload length reduced
modulo 2 to the 32, the payload bytes that follow the prefix are exactly the
payload, and the declared length equals the number of payload bytes that follow
precisely when the payload is shorter than 2 to the 32 bytes. -/
theorem send_bytes_length_prefix_mod (p : List Nat) :
    be_to_nat ((send_bytes p 4).take 4) = p.length % 2 ^ 32 ∧
      (send_bytes p 4).drop 4 = p ∧
      (be_to_nat ((send_bytes p 4).take 4) = ((send_bytes p 4).drop 4).length ↔
        p.length < 2 ^ 32) := by
  rw [send_bytes_full]
  have htake : (u32_be (p.length % 2 ^ 32) ++ p).take 4 = u32_be (p.length % 2 ^ 32) := by
    rw [show (4 : Nat) = (u32_be (p.length % 2 ^ 32)).length from (length_u32_be _).symm]
    exact List.take_left _ _
  have hdrop : (u32_be (p.length % 2 ^ 32) ++ p).drop 4 = p := by
    rw [show (4 : Nat) = (u32_be (p.length % 2 ^ 32)).length from (length_u32_be _).symm]
    exact List.drop_left _ _
  rw [htake, hdrop, be_to_nat_u32_be]
  refine ⟨by omega, rfl, ?_⟩
  constructor
  · intro heq
    omega
  · intro hlt
    omega

/-! ## Message codec, from shared/src/lib.rs

MessageType is the tagged union of shared/src/lib.rs; Rust String fields are
represented by their UTF-8 byte sequences and Vec u8 fields by byte sequences.
send_message serializes with serde_cbor to_vec and receive_message parses with
serde_cbor from_slice; both are embedded below at the byte level, following
serde_cbor's externally tagged encoding of enums: a one-entry map from the
variant name (a CBOR text string) to the payload, where a newtype variant
carries its value directly and a tuple variant carries a CBOR array of its
fields in declaration order. A Rust String becomes a CBOR text string, a
Vec u8 becomes a CBOR array of unsigned integers (serde's default for Vec u8,
no serde_bytes in the source), and bool becomes a CBOR simple value. -/

/-- The tagged message union from shared/src/lib.rs; string fields are UTF-8
byte sequences, binary fields are byte sequences. -/
inductive MessageType
  | Text : List Nat → MessageType
  | Image : List Nat → MessageType
  | File : List Nat → List Nat → MessageType
  | AuthRequest : List Nat → List Nat → List Nat → MessageType
  | AuthResponse : Bool → List Nat → MessageType
deriving DecidableEq

/-- CBOR head for the given major type: the initial byte and, when the
argument does not fit in the initial byte, its big-endian bytes in the
shortest of the 1, 2, 4 or 8 byte forms, as serde_cbor writes lengths and
unsigned integers. -/
def encodeHead (major n : Nat) : List Nat :=
  if n < 24 then [major * 32 + n]
  else if n < 2 ^ 8 then [major * 32 + 24, n]
  else if n < 2 ^ 16 then [major * 32 + 25, n / 2 ^ 8, n % 256]
  else if n < 2 ^ 32 then
    [major * 32 + 26, n / 2 ^ 24, n / 2 ^ 16 % 256, n / 2 ^ 8 % 256, n % 256]
  else
    [major * 32 + 27, n / 2 ^ 56 % 256, n / 2 ^ 48 % 256, n / 2 ^ 40 % 256,
      n / 2 ^ 32 % 256, n / 2 ^ 24 % 256, n / 2 ^ 16 % 256, n / 2 ^ 8 % 256,
      n % 256]

/-- Parse a CBOR head, accepting only the given major type; returns the
argument value and the unconsumed bytes. -/
def parseHead (major : Nat) : List Nat → Option (Nat × List Nat)
  | [] => none
  | b :: rest =>
    if b / 32 = major then
      let ai := b % 32
      if ai < 24 then some (ai, rest)
      else if ai = 24 then
        match rest with
        | b0 :: r => some (b0, r)
        | [] => none
      else if ai = 25 then
        match rest with
        | b0 :: b1 :: r => some (b0 * 256 + b1, r)
        | _ => none
      else if ai = 26 then
        match rest with
        | b0 :: b1 :: b2 :: b3 :: r => some (((b0 * 256 + b1) * 256 + b2) * 256 + b3, r)
        | _ => none
      else if ai = 27 then
        match rest with
        | b0 :: b1 :: b2 :: b3 :: b4 :: b5 :: b6 :: b7 :: r =>
          some ((((((((b0 * 256 + b1) * 256 + b2) * 256 + b3) * 256 + b4) * 256
            + b5) * 256 + b6) * 256 + b7), r)
        | _ => none
      else none
    else none

/-- Whether a byte is a UTF-8 continuation byte. -/
def isCont (b : Nat) : Bool := 128 ≤ b && b ≤ 191

/-- Fuelled UTF-8 validity check (the fuel is an upper bound on the number of
bytes, so validUtf8 below always supplies enough); mirrors the validation that
serde and the Rust standard library perform when decoding bytes into a String,
rejecting overlong forms, surrogates and out-of-range code points. -/
def utf8Go : Nat → List Nat → Bool
  | _, [] => true
  | 0, _ :: _ => false
  | fuel + 1, b :: rest =>
    if b ≤ 127 then utf8Go fuel rest
    else if 194 ≤ b && b ≤ 223 then
      match rest with
      | c1 :: r => isCont c1 && utf8Go fuel r
      | [] => false
    else if b = 224 then
      match rest with
      | c1 :: c2 :: r => (160 ≤ c1 && c1 ≤ 191) && isCont c2 && utf8Go fuel r
      | _ => false
    else if (225 ≤ b && b ≤ 236) || (238 ≤ b && b ≤ 239) then
      match rest with
      | c1 :: c2 :: r => isCont c1 && isCont c2 && utf8Go fuel r
      | _ => false
    else if b = 237 then
      match rest with
      | c1 :: c2 :: r => (128 ≤ c1 && c1 ≤ 159) && isCont c2 && utf8Go fuel r
      | _ => false
    else if b = 240 then
      match rest with
      | c1 :: c2 :: c3 :: r =>
        (144 ≤ c1 && c1 ≤ 191) && isCont c2 && isCont c3 && utf8Go fuel r
      | _ => false
    else if 241 ≤ b && b ≤ 243 then
      match rest with
      | c1 :: c2 :: c3 :: r => isCont c1 && isCont c2 && isCont c3 && utf8Go fuel r
      | _ => false
    else if b = 244 then
      match rest with
      | c1 :: c2 :: c3 :: r =>
        (128 ≤ c1 && c1 ≤ 143) && isCont c2 && isCont c3 && utf8Go fuel r
      | _ => false
    else false

/-- UTF-8 validity of a byte sequence. -/
def validUtf8 (l : List Nat) : Bool := utf8Go l.length l

/-- CBOR text string: major type 3 head with the byte length, then the raw
UTF-8 bytes. -/
def encodeText (s : List Nat) : List Nat := encodeHead 3 s.length ++ s

/-- Parse a CBOR text string, validating UTF-8 as serde_cbor does when
producing a Rust String. -/
def parseText (input : List Nat) : Option (List Nat × List Nat) :=
  match parseHead 3 input with
  | none => none
  | some (n, rest) =>
    if n ≤ rest.length && validUtf8 (rest.take n) then some (rest.take n, rest.drop n)
    else none

/-- One u8 as a CBOR unsigned integer (major type 0). -/
def encodeU8 (b : Nat) : List Nat := encodeHead 0 b

/-- Parse one CBOR unsigned integer into a u8, failing on overflow as serde
does when deserializing a u8. -/
def parseU8 (input : List Nat) : Option (Nat × List Nat) :=
  match parseHead 0 input with
  | none => none
  | some (n, r) => if n < 256 then some (n, r) else none

/-- Serde's default encoding of Vec u8: a CBOR array (major type 4) of the
bytes as unsigned integers. -/
def encodeByteArray (bs : List Nat) : List Nat :=
  encodeHead 4 bs.length ++ (bs.map encodeU8).flatten

/-- Parse a known number of u8 array elements. -/
def parseU8List : Nat → List Nat → Option (List Nat × List Nat)
  | 0, input => some ([], input)
  | n + 1, input =>
    match parseU8 input with
    | none => none
    | some (b, r) =>
      match parseU8List n r with
      | none => none
      | some (bs, r2) => some (b :: bs, r2)

/-- Parse a CBOR array of u8 into a Vec u8. -/
def parseByteArray (input : List Nat) : Option (List Nat × List Nat) :=
  match parseHead 4 input with
  | none => none
  | some (n, r) => parseU8List n r

/-- CBOR booleans: the simple values false and true. -/
def encodeBool (b : Bool) : List Nat := if b then [245] else [244]

/-- Parse a CBOR boolean. -/
def parseBool : List Nat → Option (Bool × List Nat)
  | 244 :: r => some (false, r)
  | 245 :: r => some (true, r)
  | _ => none

/-- UTF-8 bytes of the variant name Text. -/
def textName : List Nat := [84, 101, 120, 116]

/-- UTF-8 bytes of the variant name Image. -/
def imageName : List Nat := [73, 109, 97, 103, 101]

/-- UTF-8 bytes of the variant name File. -/
def fileVariantName : List Nat := [70, 105, 108, 101]

/-- UTF-8 bytes of the variant name AuthRequest. -/
def authRequestName : List Nat := [65, 117, 116, 104, 82, 101, 113, 117, 101, 115, 116]

/-- UTF-8 bytes of the variant name AuthResponse. -/
def authResponseName : List Nat := [65, 117, 116, 104, 82, 101, 115, 112, 111, 110, 115, 101]

/-- serde_cbor to_vec on MessageType, as used by send_message: a one-entry map
(head byte 161) from the variant name to the variant payload. -/
def to_vec : MessageType → List Nat
  | .Text s => 161 :: (encodeText textName ++ encodeText s)
  | .Image bs => 161 :: (encodeText imageName ++ encodeByteArray bs)
  | .File name bs =>
    161 :: (encodeText fileVariantName ++
      (encodeHead 4 2 ++ (encodeText name ++ encodeByteArray bs)))
  | .AuthRequest a u p =>
    161 :: (encodeText authRequestName ++
      (encodeHead 4 3 ++ (encodeText a ++ (encodeText u ++ encodeText p))))
  | .AuthResponse ok detail =>
    161 :: (encodeText authResponseName ++
      (encodeHead 4 2 ++ (encodeBool ok ++ encodeText detail)))

/-- Dispatch on the parsed variant name and parse the variant payload; the
whole input must be consumed, as serde_cbor's from_slice demands. -/
def parseVariant (name rest : List Nat) : Option MessageType :=
  if name = textName then
    match parseText rest with
    | some (s, []) => some (.Text s)
    | _ => none
  else if name = imageName then
    match parseByteArray rest with
    | some (bs, []) => some (.Image bs)
    | _ => none
  else if name = fileVariantName then
    match parseHead 4 rest with
    | some (len, r) =>
      if len = 2 then
        match parseText r with
        | some (n, r2) =>
          match parseByteArray r2 with
          | some (bs, []) => some (.File n bs)
          | _ => none
        | none => none
      else none
    | none => none
  else if name = authRequestName then
    match parseHead 4 rest with
    | some (len, r) =>
      if len = 3 then
        match parseText r with
        | some (a, r2) =>
          match parseText r2 with
          | some (u, r3) =>
            match parseText r3 with
            | some (p, []) => some (.AuthRequest a u p)
            | _ => none
          | none => none
        | none => none
      else none
    | none => none
  else if name = authResponseName then
    match parseHead 4 rest with
    | some (len, r) =>
      if len = 2 then
        match parseBool r with
        | some (ok, r2) =>
          match parseText r2 with
          | some (detail, []) => some (.AuthResponse ok detail)
          | _ => none
        | none => none
      else none
    | none => none
  else none

/-- serde_cbor from_slice on MessageType, as used by receive_message: parse
the one-entry map head, the variant name, then the payload, consuming the
whole input. -/
def from_slice (input : List Nat) : Option MessageType :=
  match parseHead 5 input with
  | some (len, rest) =>
    if len = 1 then
      match parseText rest with
      | some (name, r) => parseVariant name r
      | none => none
    else none
  | none => none

/-- A byte sequence standing for a Rust Vec u8: every element is a byte and
the length fits in usize. -/
def wfBytes (bs : List Nat) : Prop := (∀ b ∈ bs, b < 256) ∧ bs.length < 2 ^ 64

/-- A byte sequence standing for a Rust String: valid UTF-8 with a length that
fits in usize. -/
def wfText (s : List Nat) : Prop := validUtf8 s = true ∧ s.length < 2 ^ 64

/-- Well-formedness of a modelled message: each field is representable by the
Rust type it stands for. -/
def wf : MessageType → Prop
  | .Text s => wfText s
  | .Image bs => wfBytes bs
  | .File name bs => wfText name ∧ wfBytes bs
  | .AuthRequest a u p => wfText a ∧ wfText u ∧ wfText p
  | .AuthResponse _ detail => wfText detail

theorem parseHead_encodeHead (major n : Nat) (r : List Nat) (hn : n < 2 ^ 64) :
    parseHead major (encodeHead major n ++ r) = some (n, r) := by
  unfold encodeHead
  split_ifs with h1 h2 h3 h4
  · have e1 : (major * 32 + n) / 32 = major := by omega
    have e2 : (major * 32 + n) % 32 = n := by omega
    simp [parseHead, e1, e2, h1]
  · have e1 : (major * 32 + 24) / 32 = major := by omega
    have e2 : (major * 32 + 24) % 32 = 24 := by omega
    simp [parseHead, e1, e2]
  · have e1 : (major * 32 + 25) / 32 = major := by omega
    have e2 : (major * 32 + 25) % 32 = 25 := by omega
    simp [parseHead, e1, e2]
    omega
  · have e1 : (major * 32 + 26) / 32 = major := by omega
    have e2 : (major * 32 + 26) % 32 = 26 := by omega
    simp [parseHead, e1, e2]
    omega
  · have e1 : (major * 32 + 27) / 32 = major := by omega
    have e2 : (major * 32 + 27) % 32 = 27 := by omega
    simp [parseHead, e1, e2]
    omega

theorem parseText_encodeText (s r : List Nat) (hu : validUtf8 s = true)
    (hl : s.length < 2 ^ 64) :
    parseText (encodeText s ++ r) = some (s, r) := by
  unfold parseText encodeText
  rw [List.append_assoc, parseHead_encodeHead 3 s.length (s ++ r) hl]
  show (if s.length ≤ (s ++ r).length && validUtf8 ((s ++ r).take s.length) then
      some ((s ++ r).take s.length, (s ++ r).drop s.length) else none) = some (s, r)
  rw [List.take_left, List.drop_left, hu]
  rw [if_pos]
  simp [List.length_append]

theorem parseU8_encodeU8 (b : Nat) (r : List Nat) (hb : b < 256) :
    parseU8 (encodeU8 b ++ r) = some (b, r) := by
  unfold parseU8 encodeU8
  rw [parseHead_encodeHead 0 b r (by omega)]
  show (if b < 256 then some (b, r) else none) = some (b, r)
  rw [if_pos hb]

theorem parseU8List_encode (bs r : List Nat) (hb : ∀ b ∈ bs, b < 256) :
    parseU8List bs.length ((bs.map encodeU8).flatten ++ r) = some (bs, r) := by
  induction bs with
  | nil => simp [parseU8List]
  | cons b tl ih =>
    have hbhead : b < 256 := hb b (List.mem_cons_self b tl)
    have hbtl : ∀ x ∈ tl, x < 256 := fun x hx => hb x (List.mem_cons_of_mem b hx)
    show parseU8List (tl.length + 1)
      ((encodeU8 b ++ (tl.map encodeU8).flatten) ++ r) = some (b :: tl, r)
    rw [List.append_assoc]
    unfold parseU8List
    rw [parseU8_encodeU8 b _ hbhead]
    show (match parseU8List tl.length ((tl.map encodeU8).flatten ++ r) with
      | none => none
      | some (xs, r2) => some (b :: xs, r2)) = some (b :: tl, r)
    rw [ih hbtl]

theorem parseByteArray_encode (bs r : List Nat) (h : wfBytes bs) :
    parseByteArray (encodeByteArray bs ++ r) = some (bs, r) := by
  unfold parseByteArray encodeByteArray
  rw [List.append_assoc, parseHead_encodeHead 4 bs.length _ h.2]
  show parseU8List bs.length ((bs.map encodeU8).flatten ++ r) = some (bs, r)
  exact parseU8List_encode bs r h.1

theorem parseBool_encodeBool (b : Bool) (r : List Nat) :
    parseBool (encodeBool b ++ r) = some (b, r) := by
  cases b <;> rfl

/-- C4: decoding the encoding is the identity on MessageType. For every
well-formed message (string fields valid UTF-8, binary fields bytes, lengths
within usize), the CBOR serialization used by send_message followed by the
deserialization used by receive_message returns the original message. -/
theorem from_slice_to_vec (m : MessageType) (h : wf m) :
    from_slice (to_vec m) = some m := by
  cases m with
  | Text s =>
    obtain ⟨hu, hl⟩ := h
    have h1 : parseHead 5 (161 :: (encodeText textName ++ encodeText s)) =
        some (1, encodeText textName ++ encodeText s) := by
      show parseHead 5 (encodeHead 5 1 ++ (encodeText textName ++ encodeText s)) = _
      exact parseHead_encodeHead 5 1 _ (by norm_num)
    have h2 : parseText (encodeText textName ++ encodeText s) =
        some (textName, encodeText s) :=
      parseText_encodeText textName (encodeText s) (by decide) (by decide)
    have h3 : parseText (encodeText s) = some (s, []) := by
      have := parseText_encodeText s [] hu hl
      rwa [List.append_nil] at this
    simp [from_slice, to_vec, parseVariant, h1, h2, h3]
  | Image bs =>
    have h1 : parseHead 5 (161 :: (encodeText imageName ++ encodeByteArray bs)) =
        some (1, encodeText imageName ++ encodeByteArray bs) := by
      show parseHead 5 (encodeHead 5 1 ++ (encodeText imageName ++ encodeByteArray bs)) = _
      exact parseHead_encodeHead 5 1 _ (by norm_num)
    have h2 : parseText (encodeText imageName ++ encodeByteArray bs) =
        some (imageName, encodeByteArray bs) :=
      parseText_encodeText imageName (encodeByteArray bs) (by decide) (by decide)
    have h3 : parseByteArray (encodeByteArray bs) = some (bs, []) := by
      have := parseByteArray_encode bs [] h
      rwa [List.append_nil] at this
    have n1 : imageName ≠ textName := by decide
    simp [from_slice, to_vec, parseVariant, h1, h2, h3, n1]
  | File name bs =>
    obtain ⟨⟨hu, hl⟩, hbs⟩ := h
    have h1 : parseHead 5 (161 :: (encodeText fileVariantName ++
        (encodeHead 4 2 ++ (encodeText name ++ encodeByteArray bs)))) =
        some (1, encodeText fileVariantName ++
          (encodeHead 4 2 ++ (encodeText name ++ encodeByteArray bs))) := by
      show parseHead 5 (encodeHead 5 1 ++ _) = _
      exact parseHead_encodeHead 5 1 _ (by norm_num)
    have h2 : parseText (encodeText fileVariantName ++
        (encodeHead 4 2 ++ (encodeText name ++ encodeByteArray bs))) =
        some (fileVariantName, encodeHead 4 2 ++ (encodeText name ++ encodeByteArray bs)) :=
      parseText_encodeText fileVariantName _ (by decide) (by decide)
    have h3 : parseHead 4 (encodeHead 4 2 ++ (encodeText name ++ encodeByteArray bs)) =
        some (2, encodeText name ++ encodeByteArray bs) :=
      parseHead_encodeHead 4 2 _ (by norm_num)
    have h4 : parseText (encodeText name ++ encodeByteArray bs) =
        some (name, encodeByteArray bs) :=
      parseText_encodeText name _ hu hl
    have h5 : parseByteArray (encodeByteArray bs) = some (bs, []) := by
      have := parseByteArray_encode bs [] hbs
      rwa [List.append_nil] at this
    have n1 : fileVariantName ≠ textName := by decide
    have n2 : fileVariantName ≠ imageName := by decide
    simp [from_slice, to_vec, parseVariant, h1, h2, h3, h4, h5, n1, n2]
  | AuthRequest a u p =>
    obtain ⟨⟨hua, hla⟩, ⟨huu, hlu⟩, ⟨hup, hlp⟩⟩ := h
    have h1 : parseHead 5 (161 :: (encodeText authRequestName ++
        (encodeHead 4 3 ++ (encodeText a ++ (encodeText u ++ encodeText p))))) =
        some (1, encodeText authRequestName ++
          (encodeHead 4 3 ++ (encodeText a ++ (encodeText u ++ encodeText p)))) := by
      show parseHead 5 (encodeHead 5 1 ++ _) = _
      exact parseHead_encodeHead 5 1 _ (by norm_num)
    have h2 : parseText (encodeText authRequestName ++
        (encodeHead 4 3 ++ (encodeText a ++ (encodeText u ++ encodeText p)))) =
        some (authRequestName,
          encodeHead 4 3 ++ (encodeText a ++ (encodeText u ++ encodeText p))) :=
      parseText_encodeText authRequestName _ (by decide) (by decide)
    have h3 : parseHead 4 (encodeHead 4 3 ++ (encodeText a ++ (encodeText u ++ encodeText p))) =
        some (3, encodeText a ++ (encodeText u ++ encodeText p)) :=
      parseHead_encodeHead 4 3 _ (by norm_num)
    have h4 : parseText (encodeText a ++ (encodeText u ++ encodeText p)) =
        some (a, encodeText u ++ encodeText p) :=
      parseText_encodeText a _ hua hla
    have h5 : parseText (encodeText u ++ encodeText p) = some (u, encodeText p) :=
      parseText_encodeText u _ huu hlu
    have h6 : parseText (encodeText p) = some (p, []) := by
      have := parseText_encodeText p [] hup hlp
      rwa [List.append_nil] at this
    have n1 : authRequestName ≠ textName := by decide
    have n2 : authRequestName ≠ imageName := by decide
    have n3 : authRequestName ≠ fileVariantName := by decide
    simp [from_slice, to_vec, parseVariant, h1, h2, h3, h4, h5, h6, n1, n2, n3]
  | AuthResponse ok detail =>
    obtain ⟨hu, hl⟩ := h
    have h1 : parseHead 5 (161 :: (encodeText authResponseName ++
        (encodeHead 4 2 ++ (encodeBool ok ++ encodeText detail)))) =
        some (1, encodeText authResponseName ++
          (encodeHead 4 2 ++ (encodeBool ok ++ encodeText detail))) := by
      show parseHead 5 (encodeHead 5 1 ++ _) = _
      exact parseHead_encodeHead 5 1 _ (by norm_num)
    have h2 : parseText (encodeText authResponseName ++
        (encodeHead 4 2 ++ (encodeBool ok ++ encodeText detail))) =
        some (authResponseName, encodeHead 4 2 ++ (encodeBool ok ++ encodeText detail)) :=
      parseText_encodeText authResponseName _ (by decide) (by decide)
    have h3 : parseHead 4 (encodeHead 4 2 ++ (encodeBool ok ++ encodeText detail)) =
        some (2, encodeBool ok ++ encodeText detail) :=
      parseHead_encodeHead 4 2 _ (by norm_num)
    have h4 : parseBool (encodeBool ok ++ encodeText detail) = some (ok, encodeText detail) :=
      parseBool_encodeBool ok _
    have h5 : parseText (encodeText detail) = some (detail, []) := by
      have := parseText_encodeText detail [] hu hl
      rwa [List.append_nil] at this
    have n1 : authResponseName ≠ textName := by decide
    have n2 : authResponseName ≠ imageName := by decide
    have n3 : authResponseName ≠ fileVariantName := by decide
    have n4 : authResponseName ≠ authRequestName := by decide
    simp [from_slice, to_vec, parseVariant, h1, h2, h3, h4, h5, n1, n2, n3, n4]

/-- Witness for C4 at the Text message with body hi. -/
theorem from_slice_to_vec_witness :
    wf (MessageType.Text [104, 105]) ∧
      from_slice (to_vec (MessageType.Text [104, 105])) =
        some (MessageType.Text [104, 105]) :=
  ⟨⟨by decide, by decide⟩,
    from_slice_to_vec (MessageType.Text [104, 105]) ⟨by decide, by decide⟩⟩

/-! ## Connection registry and broadcast fan-out, from server/src/main.rs

The registry client_writers is a HashMap from socket addresses to shared
writer handles; it is modelled as an association list whose keys are pairwise
distinct (the HashMap invariant). Addresses and writer handles are abstract
identifiers. -/

/-- A socket address, as an abstract identifier. -/
abbrev SocketAddr := Nat

/-- A shared writer handle, as an abstract identifier. -/
abbrev Writer := Nat

/-- The client_writers HashMap, as an association list. -/
abbrev Registry := List (SocketAddr × Writer)

/-- HashMap get: the writer stored under an address, if any. -/
def registryGet (reg : Registry) (a : SocketAddr) : Option Writer :=
  (reg.find? (fun p => p.1 == a)).map Prod.snd

/-- HashMap insert, as performed at accept time in run_server: any existing
entry under the same address is replaced. -/
def registryInsert (reg : Registry) (a : SocketAddr) (w : Writer) : Registry :=
  (a, w) :: reg.eraseP (fun p => p.1 == a)

/-- Model of remove_client_writer from server/src/main.rs: HashMap remove of
the entry keyed by the client address. The source only logs whether an entry
was present and returns unit either way, so removing an absent identity is
not an error. -/
def remove_client_writer (a : SocketAddr) (reg : Registry) : Registry :=
  reg.eraseP (fun p => p.1 == a)

/-- The broadcast fan-out loop of handle_client, iterating a key list of the
locked map: the sender's own address is skipped; every other address is looked
up (the ok_or_else arm would abort the whole loop through the question mark
operator, but it is unreachable because the keys come from the same locked
map) and a send is attempted; a send error is only logged and the iteration
continues. sendOk tells which recipients' writes succeed; the result records
each attempted recipient with its outcome, in iteration order. -/
def fanoutKeys (reg : Registry) (sender : SocketAddr) (sendOk : SocketAddr → Bool) :
    List SocketAddr → Option (List (SocketAddr × Bool))
  | [] => some []
  | addr :: rest =>
    if addr = sender then fanoutKeys reg sender sendOk rest
    else
      match registryGet reg addr with
      | none => none
      | some _ =>
        match fanoutKeys reg sender sendOk rest with
        | none => none
        | some results => some ((addr, sendOk addr) :: results)

/-- One broadcast fan-out pass of handle_client over the registry's keys. -/
def fanout (reg : Registry) (sender : SocketAddr) (sendOk : SocketAddr → Bool) :
    Option (List (SocketAddr × Bool)) :=
  fanoutKeys reg sender sendOk (reg.map Prod.fst)

theorem registryGet_isSome (reg : Registry) (a : SocketAddr)
    (h : a ∈ reg.map Prod.fst) : (registryGet reg a).isSome := by
  have hfind : (reg.find? (fun p => p.1 == a)).isSome := by
    rw [List.find?_isSome]
    obtain ⟨p, hp, rfl⟩ := List.mem_map.mp h
    exact ⟨p, hp, by simp⟩
  obtain ⟨q, hq⟩ := Option.isSome_iff_exists.mp hfind
  unfold registryGet
  rw [hq]
  rfl

theorem fanoutKeys_eq (reg : Registry) (sender : SocketAddr)
    (sendOk : SocketAddr → Bool) (keys : List SocketAddr)
    (hk : ∀ a ∈ keys, (registryGet reg a).isSome) :
    fanoutKeys reg sender sendOk keys =
      some ((keys.filter (fun a => a != sender)).map (fun a => (a, sendOk a))) := by
  induction keys with
  | nil => rfl
  | cons addr rest ih =>
    have haddr := hk addr (List.mem_cons_self addr rest)
    have hrest : ∀ a ∈ rest, (registryGet reg a).isSome :=
      fun a ha => hk a (List.mem_cons_of_mem addr ha)
    unfold fanoutKeys
    by_cases hs : addr = sender
    · rw [if_pos hs, ih hrest]
      subst hs
      simp
    · rw [if_neg hs]
      obtain ⟨w, hw⟩ := Option.isSome_iff_exists.mp haddr
      rw [hw]
      show (match fanoutKeys reg sender sendOk rest with
        | none => none
        | some results => some ((addr, sendOk addr) :: results)) = _
      rw [ih hrest]
      have : (addr != sender) = true := by
        simp [bne_iff_ne]
        exact hs
      simp [this]

/-- C7: on every fan-out pass, the relay attempts to write to exactly the
addresses registered at that moment other than the sender, in iteration
order and regardless of which writes succeed, and the sender is never among
the attempted recipients — the message is not echoed back. -/
theorem fanout_broadcast_exclusion (reg : Registry) (sender : SocketAddr)
    (sendOk : SocketAddr → Bool) :
    fanout reg sender sendOk =
        some (((reg.map Prod.fst).filter (fun a => a != sender)).map
          (fun a => (a, sendOk a))) ∧
      sender ∉ (((reg.map Prod.fst).filter (fun a => a != sender)).map
          (fun a => (a, sendOk a))).map Prod.fst := by
  constructor
  · exact fanoutKeys_eq reg sender sendOk (reg.map Prod.fst)
      (fun a ha => registryGet_isSome reg a ha)
  · intro hmem
    rw [List.map_map] at hmem
    obtain ⟨a, ha, haeq⟩ := List.mem_map.mp hmem
    have := List.of_mem_filter ha
    simp only [Function.comp] at haeq
    rw [haeq] at this
    simp at this

/-- C6: broadcast fan-out isolates failures. Whatever set of recipients the
transport fails for (any two failure patterns sendOk and sendOk2), the fan-out
completes without aborting and attempts exactly the registered addresses other
than the sender — a failed write to an earlier recipient never prevents the
attempt to a later one. -/
theorem fanout_isolates_failures (reg : Registry) (sender : SocketAddr)
    (sendOk sendOk2 : SocketAddr → Bool) :
    ∃ r1 r2, fanout reg sender sendOk = some r1 ∧
      fanout reg sender sendOk2 = some r2 ∧
      r1.map Prod.fst = r2.map Prod.fst ∧
      r1.map Prod.fst = (reg.map Prod.fst).filter (fun a => a != sender) := by
  refine ⟨_, _, fanoutKeys_eq reg sender sendOk (reg.map Prod.fst)
      (fun a ha => registryGet_isSome reg a ha),
    fanoutKeys_eq reg sender sendOk2 (reg.map Prod.fst)
      (fun a ha => registryGet_isSome reg a ha), ?_, ?_⟩
  · rw [List.map_map, List.map_map]
    rfl
  · rw [List.map_map]
    exact List.map_id _

theorem registryGet_remove_ne (a b : SocketAddr) (reg : Registry) (hne : b ≠ a) :
    registryGet (remove_client_writer a reg) b = registryGet reg b := by
  induction reg with
  | nil => rfl
  | cons p tl ih =>
    unfold remove_client_writer at ih ⊢
    by_cases hp : p.1 = a
    · rw [List.eraseP_cons_of_pos (by simp [hp])]
      unfold registryGet
      rw [List.find?_cons_of_neg tl
        (by simp only [hp, beq_iff_eq]; exact fun hab => hne hab.symm)]
    · rw [List.eraseP_cons_of_neg (by simp [hp])]
      by_cases hb : p.1 = b
      · unfold registryGet
        rw [List.find?_cons_of_pos _ (by simp [hb]), List.find?_cons_of_pos _ (by simp [hb])]
      · unfold registryGet at ih ⊢
        rw [List.find?_cons_of_neg _ (by simp [hb]), List.find?_cons_of_neg _ (by simp [hb])]
        exact ih

theorem remove_keys_ne (a : SocketAddr) (reg : Registry)
    (hnd : (reg.map Prod.fst).Nodup) :
    ∀ p ∈ remove_client_writer a reg, p.1 ≠ a := by
  induction reg with
  | nil => intro p hp; cases hp
  | cons q tl ih =>
    rw [List.map_cons, List.nodup_cons] at hnd
    unfold remove_client_writer
    by_cases hq : q.1 = a
    · rw [List.eraseP_cons_of_pos (by simp [hq])]
      intro p hp hpa
      exact hnd.1 (hq ▸ hpa ▸ List.mem_map_of_mem Prod.fst hp)
    · rw [List.eraseP_cons_of_neg (by simp [hq])]
      intro p hp
      rcases List.mem_cons.mp hp with rfl | hptl
      · exact hq
      · exact ih hnd.2 p hptl

theorem remove_client_writer_of_absent (a : SocketAddr) (reg : Registry)
    (h : ∀ p ∈ reg, p.1 ≠ a) : remove_client_writer a reg = reg :=
  List.eraseP_of_forall_not (fun p hp => by simp [h p hp])

theorem registryGet_none_of_absent (a : SocketAddr) (reg : Registry)
    (h : ∀ p ∈ reg, p.1 ≠ a) : registryGet reg a = none := by
  unfold registryGet
  rw [List.find?_eq_none.mpr (fun p hp => by simp [h p hp])]
  rfl

/-- C8: deregistration is idempotent with respect to absence. Removing an
identity that is not in the registry is a no-op (and, per the source, not an
error: remove_client_writer only logs the miss), removing the same identity
twice equals removing it once, after which the registry does not contain the
identity while every other entry is unchanged. -/
theorem remove_client_writer_idempotent (a : SocketAddr) (reg : Registry)
    (hnd : (reg.map Prod.fst).Nodup) :
    (a ∉ reg.map Prod.fst → remove_client_writer a reg = reg) ∧
      remove_client_writer a (remove_client_writer a reg) =
        remove_client_writer a reg ∧
      registryGet (remove_client_writer a (remove_client_writer a reg)) a = none ∧
      ∀ b, b ≠ a →
        registryGet (remove_client_writer a (remove_client_writer a reg)) b =
          registryGet reg b := by
  have honce : remove_client_writer a (remove_client_writer a reg) =
      remove_client_writer a reg :=
    remove_client_writer_of_absent a _ (remove_keys_ne a reg hnd)
  refine ⟨?_, honce, ?_, ?_⟩
  · intro habs
    apply remove_client_writer_of_absent
    intro p hp hpa
    exact habs (hpa ▸ List.mem_map_of_mem Prod.fst hp)
  · rw [honce]
    exact registryGet_none_of_absent a _ (remove_keys_ne a reg hnd)
  · intro b hb
    rw [honce, registryGet_remove_ne a b reg hb]

/-- Witness for C8 at the registry holding address 1 and the removal of the
absent address 0. -/
theorem remove_client_writer_idempotent_witness :
    (([(1, 5)] : Registry).map Prod.fst).Nodup ∧
      ((0 ∉ ([(1, 5)] : Registry).map Prod.fst →
          remove_client_writer 0 [(1, 5)] = [(1, 5)]) ∧
        remove_client_writer 0 (remove_client_writer 0 [(1, 5)]) =
          remove_client_writer 0 [(1, 5)] ∧
        registryGet (remove_client_writer 0 (remove_client_writer 0 [(1, 5)])) 0 =
          none ∧
        ∀ b, b ≠ 0 →
          registryGet (remove_client_writer 0 (remove_client_writer 0 [(1, 5)])) b =
            registryGet [(1, 5)] b) :=
  ⟨by decide, remove_client_writer_idempotent 0 [(1, 5)] (by decide)⟩

/-! ## Per-connection lifecycle, from server/src/main.rs -/

/-- Outcome of authenticate_user for one connection, per its match arms: the
first received message is not an AuthRequest; receiving the first message
fails; the credential check rejects, so an AuthResponse with success false is
sent; the credential check accepts, so an AuthResponse with success true is
sent. The boolean records whether sending the response succeeded;
authenticate_user returns a user identity only in the accepted case with a
successfully sent response. -/
inductive AuthOutcome
  | notAuthRequest
  | receiveError
  | rejected (respSendOk : Bool)
  | accepted (respSendOk : Bool)

/-- Whether authenticate_user returns an identity, letting handle_client
enter the relay loop. -/
def authSucceeded : AuthOutcome → Bool
  | .accepted true => true
  | _ => false

/-- Registry-affecting and protocol events in one connection's lifetime. -/
inductive SrvEvent
  | insert
  | authResp (success : Bool)
  | relayMsg
  | remove
deriving DecidableEq

/-- The AuthResponse attempt authenticate_user makes for each outcome. -/
def authEvents : AuthOutcome → List SrvEvent
  | .notAuthRequest => []
  | .receiveError => []
  | .rejected _ => [.authResp false]
  | .accepted _ => [.authResp true]

/-- Trace of one accepted connection, from run_server and handle_client: the
writer is inserted into client_writers at accept time, before any
authentication; the spawned task runs handle_client, which authenticates and,
only when authenticate_user returned an identity, relays messages until its
receive loop ends with an error (relayed counts the relayed messages); when
the task finishes, remove_client_writer removes the entry. -/
def connectionTrace (o : AuthOutcome) (relayed : Nat) : List SrvEvent :=
  [.insert] ++ authEvents o ++
    (if authSucceeded o then List.replicate relayed .relayMsg else []) ++
    [.remove]

/-- Effect of a connection's events on the registry, for the connection with
address a and writer w. -/
def applyTrace (a : SocketAddr) (w : Writer) (evs : List SrvEvent)
    (reg : Registry) : Registry :=
  evs.foldl (fun r e =>
    match e with
    | .insert => registryInsert r a w
    | .remove => remove_client_writer a r
    | _ => r) reg

/-- C1 counterexample: a connection whose authentication fails, with the
AuthResponse carrying success false delivered, nonetheless has a registry
insertion in its trace — run_server inserts the writer at accept time, before
authenticate_user runs, refuting that registry insertion never happens for
such a connection. -/
theorem insert_despite_auth_failure :
    authSucceeded (AuthOutcome.rejected true) = false ∧
      SrvEvent.insert ∈ connectionTrace (AuthOutcome.rejected true) 0 := by decide

theorem connectionTrace_of_not_auth (o : AuthOutcome) (n : Nat)
    (ho : authSucceeded o = false) :
    connectionTrace o n = [.insert] ++ authEvents o ++ [.remove] := by
  unfold connectionTrace
  rw [ho]
  simp

/-- C1 amended: the identity is inserted into the registry at accept time,
before authentication (authenticate_user sends the AuthResponse through the
registry entry). For every connection whose authentication fails or whose
first message is not an AuthRequest, the handler relays nothing, the trace
ends with teardown, and teardown undoes the insertion: provided the address
was not registered before the accept (identities are not reused while
registered), the registry afterwards equals its prior state, does not contain
the address, and no broadcast fan-out over it attempts this connection. -/
theorem failed_auth_not_relayed_and_removed (o : AuthOutcome) (n : Nat)
    (a : SocketAddr) (w : Writer) (reg : Registry)
    (ho : authSucceeded o = false) (ha : ∀ p ∈ reg, p.1 ≠ a) :
    SrvEvent.relayMsg ∉ connectionTrace o n ∧
      (connectionTrace o n).getLast? = some SrvEvent.remove ∧
      applyTrace a w (connectionTrace o n) reg = reg ∧
      registryGet (applyTrace a w (connectionTrace o n) reg) a = none ∧
      ∀ sender sendOk r,
        fanout (applyTrace a w (connectionTrace o n) reg) sender sendOk = some r →
          a ∉ r.map Prod.fst := by
  have h1 : reg.eraseP (fun p => p.1 == a) = reg :=
    List.eraseP_of_forall_not (fun p hp => by simp [ha p hp])
  have happly : applyTrace a w (connectionTrace o n) reg = reg := by
    rw [connectionTrace_of_not_auth o n ho]
    cases o <;>
      simp [applyTrace, authEvents, registryInsert, remove_client_writer, h1,
        List.eraseP_cons]
  refine ⟨?_, ?_, happly, ?_, ?_⟩
  · rw [connectionTrace_of_not_auth o n ho]
    cases o <;> simp [authEvents]
  · rw [connectionTrace_of_not_auth o n ho]
    cases o <;> simp [authEvents]
  · rw [happly]
    exact registryGet_none_of_absent a reg ha
  · intro sender sendOk r hr
    rw [happly, fanout, fanoutKeys_eq reg sender sendOk (reg.map Prod.fst)
      (fun x hx => registryGet_isSome reg x hx)] at hr
    intro hmem
    rw [(Option.some_inj.mp hr).symm, List.map_map] at hmem
    obtain ⟨x, hx, hxa⟩ := List.mem_map.mp hmem
    have hxreg := List.mem_filter.mp hx
    simp only [Function.comp] at hxa
    obtain ⟨p, hp, hpx⟩ := List.mem_map.mp hxreg.1
    exact ha p hp (by rw [hpx, hxa])

/-- Witness for C1 amended: the rejected connection at address 0 against the
empty prior registry. -/
theorem failed_auth_not_relayed_and_removed_witness :
    authSucceeded (AuthOutcome.rejected true) = false ∧
      (∀ p ∈ ([] : Registry), p.1 ≠ 0) ∧
      (SrvEvent.relayMsg ∉ connectionTrace (AuthOutcome.rejected true) 0 ∧
        (connectionTrace (AuthOutcome.rejected true) 0).getLast? =
          some SrvEvent.remove ∧
        applyTrace 0 0 (connectionTrace (AuthOutcome.rejected true) 0) [] = [] ∧
        registryGet (applyTrace 0 0 (connectionTrace (AuthOutcome.rejected true) 0)
          []) 0 = none ∧
        ∀ sender sendOk r,
          fanout (applyTrace 0 0 (connectionTrace (AuthOutcome.rejected true) 0) [])
              sender sendOk = some r → 0 ∉ r.map Prod.fst) :=
  ⟨by decide, by decide,
    failed_auth_not_relayed_and_removed (AuthOutcome.rejected true) 0 0 0 []
      (by decide) (by decide)⟩

/-! ## The accept loop, from server/src/main.rs -/

/-- Result of one accept call in run_server's loop: a connection whose
spawned handler either completes or fails (handler failures are only logged
inside the spawned task), or a failure of the accept call itself. -/
inductive AcceptResult
  | conn (handlerOk : Bool)
  | acceptError
deriving DecidableEq

/-- Fatal errors that can end run_server. -/
inductive ServerFatal
  | bindFailed
  | acceptFailed
deriving DecidableEq

/-- The accept loop of run_server over a finite prefix of accept outcomes:
each successful accept inserts the writer and spawns a handler whose outcome
does not influence the loop; an accept error propagates through the question
mark operator and ends run_server. Returns the fatal error, if any, together
with the number of connections accepted and spawned. -/
def runServerLoop : List AcceptResult → Nat → Option ServerFatal × Nat
  | [], spawned => (none, spawned)
  | .acceptError :: _, spawned => (some .acceptFailed, spawned)
  | .conn _ :: rest, spawned => runServerLoop rest (spawned + 1)

/-- Model of run_server from server/src/main.rs: TcpListener bind, whose
failure is fatal, then the accept loop. -/
def run_server (bindOk : Bool) (accepts : List AcceptResult) :
    Option ServerFatal × Nat :=
  if bindOk then runServerLoop accepts 0 else (some .bindFailed, 0)

/-- C2 counterexample: after a successful bind, a handler failure on the
first connection does not stop the loop, but an error from accept itself
terminates run_server with a fatal error — the third connection is never
accepted, refuting that only a bind failure is fatal and that the loop keeps
accepting after every per-connection failure. -/
theorem accept_error_terminates_run_server :
    run_server true [.conn false, .acceptError, .conn true] =
      (some ServerFatal.acceptFailed, 1) := by decide

theorem runServerLoop_no_accept_error (accepts : List AcceptResult)
    (h : AcceptResult.acceptError ∉ accepts) :
    ∀ spawned, runServerLoop accepts spawned = (none, spawned + accepts.length) := by
  induction accepts with
  | nil => intro spawned; simp [runServerLoop]
  | cons x rest ih =>
    intro spawned
    cases x with
    | conn b =>
      have hrest : AcceptResult.acceptError ∉ rest :=
        fun hmem => h (List.mem_cons_of_mem _ hmem)
      unfold runServerLoop
      rw [ih hrest (spawned + 1)]
      simp
      omega
    | acceptError => exact absurd (List.mem_cons_self _ _) h

/-- C2 amended: errors from handling a connection or from its teardown never
terminate the accept loop — with no accept failures run_server accepts and
spawns every incoming connection, whatever the handler outcomes, and reports
no fatal error — but besides a bind failure, an error from the accept call
itself also terminates run_server. -/
theorem run_server_survives_handler_failures (accepts : List AcceptResult)
    (h : AcceptResult.acceptError ∉ accepts) :
    run_server true accepts = (none, accepts.length) ∧
      run_server false accepts = (some ServerFatal.bindFailed, 0) := by
  constructor
  · unfold run_server
    rw [if_pos rfl, runServerLoop_no_accept_error accepts h 0]
    simp
  · rfl

/-- Witness for C2 amended, at two connections whose handlers fail and
succeed respectively. -/
theorem run_server_survives_handler_failures_witness :
    AcceptResult.acceptError ∉ [AcceptResult.conn false, AcceptResult.conn true] ∧
      (run_server true [AcceptResult.conn false, AcceptResult.conn true] =
          (none, [AcceptResult.conn false, AcceptResult.conn true].length) ∧
        run_server false [AcceptResult.conn false, AcceptResult.conn true] =
          (some ServerFatal.bindFailed, 0)) :=
  ⟨by decide,
    run_server_survives_handler_failures
      [AcceptResult.conn false, AcceptResult.conn true] (by decide)⟩

/-! ## Command line defaults, from server/src/main.rs, client/src/main.rs and
src/main.rs -/

/-- The default_value of the server chat-socket flag in server/src/main.rs. -/
def chat_socket_default : String := "0.0.0.0:11111"

/-- The default_value of the client address flag in client/src/main.rs, also
the fallback address literal of the legacy combined binary in src/main.rs. -/
def client_address_default : String := "127.0.0.1:11111"

/-- The address flag name of the legacy combined binary in src/main.rs. -/
def legacy_address_flag : String := "--address"

/-- clap resolution of the server chat-socket flag: the provided value, or
the default. -/
def server_chat_socket (provided : Option String) : String :=
  provided.getD chat_socket_default

/-- clap resolution of the client address flag: the provided value, or the
default. -/
def client_address (provided : Option String) : String :=
  provided.getD client_address_default

/-- Address resolution of the legacy combined binary in src/main.rs: argument
3 when exactly 4 arguments are given and argument 2 is the address flag,
otherwise the default. -/
def legacy_socket_address (args : List String) : String :=
  if args.length = 4 ∧ args.get? 2 = some legacy_address_flag then
    args.getD 3 client_address_default
  else client_address_default

/-- C9 counterexample: with no flag provided, the relay server's listen
address resolves to its default 0.0.0.0:11111, which differs from the claimed
common default 127.0.0.1:11111. -/
theorem server_default_not_loopback :
    server_chat_socket none = chat_socket_default ∧
      chat_socket_default ≠ client_address_default :=
  ⟨rfl, by decide⟩

/-- C9 amended: every entry point exposes an address flag on port 11111; with
no flag given, the client and the legacy combined binary resolve to
127.0.0.1:11111 while the relay server's chat-socket flag resolves to
0.0.0.0:11111, and a provided value always overrides the default. -/
theorem address_flag_defaults :
    server_chat_socket none = "0.0.0.0:11111" ∧
      client_address none = "127.0.0.1:11111" ∧
      legacy_socket_address ["prog", "run-client"] = "127.0.0.1:11111" ∧
      ∀ s, server_chat_socket (some s) = s ∧ client_address (some s) = s := by
  refine ⟨rfl, rfl, ?_, fun s => ⟨rfl, rfl⟩⟩
  rw [legacy_socket_address, if_neg (by simp)]
  rfl

end HelloRust
